import Mathlib

/-!
Verification of the core components of a heterogeneous data-replication
engine: the pipeline driver batch fetching and classification
(dt-pipeline/src/base_pipeline.rs), the snapshot slice scan
(src/extractor/mysql_snapshot_extractor.rs), the PostgreSQL
logical-replication decoders (src/extractor/pg/pg_cdc_extractor.rs), and the
sinker batching contracts (dt-connector/src/sinker).  Rust vectors become
lists, HashMaps become association lists, fallible code returns Except, and
panics (unwrap on None, out-of-range indexing) are modelled as a dedicated
error variant.
-/

namespace CubeTran

/-- Error taxonomy of the engine.  PanicErr models a Rust panic
(unwrap on None, out-of-range index). -/
inductive DtError
  | Unexpected (error : String)
  | HttpError (msg : String)
  | MetadataError (msg : String)
  | PanicErr (msg : String)
  deriving DecidableEq, Repr

/-- Row change type of a replicated row (row_type.rs). -/
inductive RowType
  | Insert
  | Update
  | Delete
  deriving DecidableEq, Repr

/-- Column value: sum over the supported SQL scalar kinds.  The claims under
verification never inspect the payloads, only compare values, so the
byte-level decoders are abstracted at the driver boundary. -/
inductive ColValue
  | none
  | tiny (v : Int)
  | long (v : Int)
  | longlong (v : Int)
  | decimal (v : String)
  | str (v : String)
  | blob (v : List Nat)
  | bit (v : Nat)
  | json (v : List Nat)
  deriving DecidableEq, Repr

/-- Association-list lookup: model of HashMap::get.  Finds the first binding
of the key. -/
def alookup {κ α : Type} [BEq κ] (m : List (κ × α)) (k : κ) : Option α :=
  match m with
  | [] => Option.none
  | (k', v) :: rest => if k' == k then some v else alookup rest k

/-- Association-list insert: model of HashMap::insert.  Replaces the first
binding of the key, or appends a new binding. -/
def ainsert {κ α : Type} [BEq κ] (m : List (κ × α)) (k : κ) (v : α) : List (κ × α) :=
  match m with
  | [] => [(k, v)]
  | (k', v') :: rest => if k' == k then (k, v) :: rest else (k', v') :: ainsert rest k v

/-- Mapping column-name to ColValue (HashMap<String, ColValue>). -/
abbrev ColValues := List (String × ColValue)

/-- Position: opaque source-offset token, modelled by its serialized string. -/
abbrev Position := String

/-- RowData as carried by the pipeline and the sinkers
(dt_common::meta::row_data::RowData). -/
structure ConnRowData where
  schema : String
  tb : String
  row_type : RowType
  before : Option ColValues
  after : Option ColValues
  data_size : Nat
  deriving DecidableEq, Repr

/-- DdlType (dt-meta/src/ddl_type.rs). -/
inductive DdlType
  | CreateDatabase
  | DropDatabase
  | CreateTable
  | DropTable
  | TuncateTable
  | RenameTable
  | AlterDatabase
  | AlterTable
  | Unknown
  deriving DecidableEq, Repr

/-- Modelled from the spec: dt_common::meta::ddl_data::DdlData is not under
src/; the spec describes a schema-level change carrying a DdlType and the
statement text.  Its content is opaque to the verified claims. -/
structure DdlData where
  ddl_type : DdlType
  query : String
  deriving DecidableEq, Repr

/-- Modelled from the spec: the Redis entry type is not under src/; fetch_raw
only observes entry.is_raw() and entry.cmd.get_name(), modelled as the two
fields below. -/
structure RedisEntry where
  is_raw : Bool
  cmd_name : String
  deriving DecidableEq, Repr

/-- DtData: tagged union of pipeline payloads (dt_common::meta::dt_data). -/
inductive DtData
  | Dml (row_data : ConnRowData)
  | Ddl (ddl_data : DdlData)
  | Begin
  | Commit
  | Redis (entry : RedisEntry)
  deriving DecidableEq, Repr

/-- DtItem = data + position + origin node. -/
structure DtItem where
  dt_data : DtData
  position : Position
  data_origin_node : Option String
  deriving DecidableEq, Repr

/-- ASCII case-insensitive string comparison (str::eq_ignore_ascii_case),
working on the character lists so that it evaluates inside the kernel. -/
def eq_ignore_ascii_case (a b : String) : Bool :=
  a.data.map Char.toLower == b.data.map Char.toLower

/-- Loop body of BasePipeline::fetch_raw: drains the item vector, keeping raw
payloads and tracking positions exactly as the Rust match does. -/
def fetch_raw_loop : List DtItem → List DtData → Option Position → Option Position →
    List DtData × Option Position × Option Position
  | [], raw_data, last_received, last_commit => (raw_data, last_received, last_commit)
  | i :: rest, raw_data, last_received, last_commit =>
    match i.dt_data with
    | DtData.Commit =>
      fetch_raw_loop rest raw_data (some i.position) (some i.position)
    | DtData.Redis entry =>
      if !entry.is_raw && eq_ignore_ascii_case entry.cmd_name "ping" then
        fetch_raw_loop rest raw_data (some i.position) (some i.position)
      else
        fetch_raw_loop rest (raw_data ++ [DtData.Redis entry]) (some i.position) (some i.position)
    | DtData.Begin =>
      fetch_raw_loop rest raw_data last_received last_commit
    | d =>
      fetch_raw_loop rest (raw_data ++ [d]) (some i.position) last_commit

/-- BasePipeline::fetch_raw. -/
def fetch_raw (data : List DtItem) : List DtData × Option Position × Option Position :=
  fetch_raw_loop data [] Option.none Option.none

/-- Loop body of BasePipeline::fetch_dml. -/
def fetch_dml_loop : List DtItem → List ConnRowData → Option Position → Option Position →
    List ConnRowData × Option Position × Option Position
  | [], dml_data, last_received, last_commit => (dml_data, last_received, last_commit)
  | i :: rest, dml_data, last_received, last_commit =>
    match i.dt_data with
    | DtData.Commit =>
      fetch_dml_loop rest dml_data (some i.position) (some i.position)
    | DtData.Dml row_data =>
      fetch_dml_loop rest (dml_data ++ [row_data]) (some i.position) last_commit
    | _ =>
      fetch_dml_loop rest dml_data last_received last_commit

/-- BasePipeline::fetch_dml. -/
def fetch_dml (data : List DtItem) : List ConnRowData × Option Position × Option Position :=
  fetch_dml_loop data [] Option.none Option.none

/-- Loop body of BasePipeline::fetch_ddl. -/
def fetch_ddl_loop : List DtItem → List DdlData → Option Position → Option Position →
    List DdlData × Option Position × Option Position
  | [], result, last_received, last_commit => (result, last_received, last_commit)
  | i :: rest, result, last_received, last_commit =>
    match i.dt_data with
    | DtData.Commit =>
      fetch_ddl_loop rest result (some i.position) (some i.position)
    | DtData.Ddl ddl_data =>
      fetch_ddl_loop rest (result ++ [ddl_data]) (some i.position) last_commit
    | _ =>
      fetch_ddl_loop rest result last_received last_commit

/-- BasePipeline::fetch_ddl. -/
def fetch_ddl (data : List DtItem) : List DdlData × Option Position × Option Position :=
  fetch_ddl_loop data [] Option.none Option.none

/-- Batch classification result (enum SinkMethod). -/
inductive SinkMethod
  | Raw
  | Ddl
  | Dml
  deriving DecidableEq, Repr

/-- BasePipeline::get_sink_method: returns on the first item that is not a
transaction delimiter. -/
def get_sink_method : List DtItem → SinkMethod
  | [] => SinkMethod.Raw
  | i :: rest =>
    match i.dt_data with
    | DtData.Ddl _ => SinkMethod.Ddl
    | DtData.Dml _ => SinkMethod.Dml
    | DtData.Redis _ => SinkMethod.Raw
    | DtData.Begin => get_sink_method rest
    | DtData.Commit => get_sink_method rest

/-! Specification-side helpers for the fetch policy and classification. -/

/-- Option fallback: keeps the first operand when present. -/
def orElseOpt {α : Type} (a b : Option α) : Option α :=
  match a with
  | some x => some x
  | Option.none => b

/-- Position of the last item of the batch satisfying a predicate. -/
def lastPosWhere (p : DtItem → Bool) (l : List DtItem) : Option Position :=
  ((l.filter p).getLast?).map DtItem.position

/-- Predicate: item is a Commit delimiter. -/
def isCommit (i : DtItem) : Bool :=
  match i.dt_data with
  | DtData.Commit => true
  | _ => false

/-- Predicate: item is a Begin delimiter. -/
def isBegin (i : DtItem) : Bool :=
  match i.dt_data with
  | DtData.Begin => true
  | _ => false

/-- Predicate: item is a Dml payload. -/
def isDml (i : DtItem) : Bool :=
  match i.dt_data with
  | DtData.Dml _ => true
  | _ => false

/-- Predicate: item is a Ddl payload. -/
def isDdl (i : DtItem) : Bool :=
  match i.dt_data with
  | DtData.Ddl _ => true
  | _ => false

/-- Predicate: item is a Redis entry. -/
def isRedis (i : DtItem) : Bool :=
  match i.dt_data with
  | DtData.Redis _ => true
  | _ => false

/-- Dml payloads of a batch, in order. -/
def dmlPayloads (l : List DtItem) : List ConnRowData :=
  l.filterMap fun i =>
    match i.dt_data with
    | DtData.Dml row_data => some row_data
    | _ => Option.none

/-- Ddl payloads of a batch, in order. -/
def ddlPayloads (l : List DtItem) : List DdlData :=
  l.filterMap fun i =>
    match i.dt_data with
    | DtData.Ddl ddl_data => some ddl_data
    | _ => Option.none

/-- Raw-stream output of one item: delimiters are dropped, a Redis entry that
is not raw and whose command name is PING (ASCII case-insensitive) is
dropped, everything else is kept. -/
def rawKeep (i : DtItem) : Option DtData :=
  match i.dt_data with
  | DtData.Commit => Option.none
  | DtData.Begin => Option.none
  | DtData.Redis entry =>
    if !entry.is_raw && eq_ignore_ascii_case entry.cmd_name "ping" then Option.none
    else some (DtData.Redis entry)
  | d => some d

/-- Raw payloads of a batch, in order. -/
def rawPayloads (l : List DtItem) : List DtData :=
  l.filterMap rawKeep

/-- First item of a batch that is not a Begin/Commit delimiter. -/
def first_payload : List DtItem → Option DtData
  | [] => Option.none
  | i :: rest =>
    match i.dt_data with
    | DtData.Begin => first_payload rest
    | DtData.Commit => first_payload rest
    | d => some d

/-- Sink method dictated by a single payload. -/
def method_of (d : DtData) : SinkMethod :=
  match d with
  | DtData.Ddl _ => SinkMethod.Ddl
  | DtData.Dml _ => SinkMethod.Dml
  | _ => SinkMethod.Raw

/-! PostgreSQL CDC extractor: keepalive reply (pg_cdc_extractor.rs). -/

/-- A PostgreSQL LSN built from its two 32-bit hex halves (serialized H/H). -/
def pg_lsn (hi lo : Nat) : Nat :=
  hi * 2 ^ 32 + lo

/-- The LSN the source hard-codes in its standby status reply:
0/2C280E70 (the TODO comment in the code admits the committed position
should be used instead). -/
def hardcoded_standby_lsn : Nat :=
  pg_lsn 0 0x2C280E70

/-- Seconds from the Unix epoch to the Postgres epoch 2000-01-01T00:00:00Z
(the literal 946_684_800 in the code). -/
def pg_epoch_offset_secs : Nat := 946684800

/-- Standby status update frame sent back on the replication stream. -/
structure StandbyStatusUpdate where
  write_lsn : Nat
  flush_lsn : Nat
  apply_lsn : Nat
  ts : Nat
  reply : Nat
  deriving DecidableEq, Repr

/-- Handling of a PrimaryKeepAlive message by PgCdcExtractor::extract_internal:
when the reply flag byte is 1, a standby status update is sent whose three
LSN fields are the hard-coded LSN (the committed_position argument, the
last sinked position from the syncer, is ignored by the code) and whose
timestamp is microseconds elapsed since the Postgres epoch. -/
def handle_primary_keep_alive (reply_flag : Nat) (committed_position : Nat)
    (now_micros_since_unix_epoch : Nat) : Option StandbyStatusUpdate :=
  if reply_flag = 1 then
    some { write_lsn := hardcoded_standby_lsn
           flush_lsn := hardcoded_standby_lsn
           apply_lsn := hardcoded_standby_lsn
           ts := now_micros_since_unix_epoch - pg_epoch_offset_secs * 1000000
           reply := 1 }
  else
    Option.none

/-! PostgreSQL CDC extractor: tuple decoding (pg_cdc_extractor.rs). -/

/-- TupleData of the logical replication wire protocol. -/
inductive TupleData
  | Null
  | Text (value : List Nat)
  | UnchangedToast
  deriving DecidableEq, Repr

/-- Per-table metadata as used by the decoders (PgTbMeta).  Column wire types
are identified by name strings. -/
structure PgTbMeta where
  schema : String
  tb : String
  cols : List String
  col_type_map : List (String × String)
  where_cols : List String
  deriving DecidableEq, Repr

/-- Metadata manager indexed by relation OID (PgMetaManager). -/
structure PgMetaManager where
  oid_to_tb_meta : List (Nat × PgTbMeta)
  deriving DecidableEq, Repr

/-- PgMetaManager::get_tb_meta_by_oid: unknown OIDs are a metadata error. -/
def get_tb_meta_by_oid (m : PgMetaManager) (oid : Nat) : Except DtError PgTbMeta :=
  match alookup m.oid_to_tb_meta oid with
  | some tb_meta => Except.ok tb_meta
  | Option.none => Except.error (DtError.MetadataError "unknown relation oid")

/-- The per-type WAL column decoder PgColValueConvertor::from_wal, whose
source file is outside src/; the decoders are verified for every such
function, so it is passed as a parameter. -/
abbrev FromWal := String → List Nat → Except DtError ColValue

/-- RowData as built by the pg CDC extractor (crate-local RowData). -/
structure PgRowData where
  db : String
  tb : String
  row_type : RowType
  before : Option ColValues
  after : Option ColValues
  position : String
  deriving DecidableEq, Repr

/-- Loop body of PgCdcExtractor::parse_row_data: walks the tuple by index,
resolving the column name from tb_meta.cols (out-of-range indexing is a
panic) and its wire type from col_type_map (unwrap on None is a panic). -/
def parse_row_data_loop (from_wal : FromWal) (tb_meta : PgTbMeta) :
    List TupleData → Nat → ColValues → Except DtError ColValues
  | [], _, col_values => Except.ok col_values
  | td :: rest, i, col_values =>
    match tb_meta.cols.get? i with
    | Option.none => Except.error (DtError.PanicErr "index out of range: tb_meta.cols")
    | some col =>
      match alookup tb_meta.col_type_map col with
      | Option.none => Except.error (DtError.PanicErr "col_type_map.get(col) on None")
      | some col_type =>
        match td with
        | TupleData.Null =>
          parse_row_data_loop from_wal tb_meta rest (i + 1) (ainsert col_values col ColValue.none)
        | TupleData.Text value =>
          match from_wal col_type value with
          | Except.error e => Except.error e
          | Except.ok col_value =>
            parse_row_data_loop from_wal tb_meta rest (i + 1) (ainsert col_values col col_value)
        | TupleData.UnchangedToast =>
          Except.error (DtError.Unexpected "unexpected UnchangedToast value received")

/-- PgCdcExtractor::parse_row_data. -/
def parse_row_data (from_wal : FromWal) (tb_meta : PgTbMeta) (tuple_data : List TupleData) :
    Except DtError ColValues :=
  parse_row_data_loop from_wal tb_meta tuple_data 0 []

/-- InsertBody of the replication protocol. -/
structure InsertBody where
  rel_id : Nat
  tuple : List TupleData
  deriving DecidableEq, Repr

/-- UpdateBody of the replication protocol. -/
structure UpdateBody where
  rel_id : Nat
  old_tuple : Option (List TupleData)
  key_tuple : Option (List TupleData)
  new_tuple : List TupleData
  deriving DecidableEq, Repr

/-- DeleteBody of the replication protocol. -/
structure DeleteBody where
  rel_id : Nat
  old_tuple : Option (List TupleData)
  key_tuple : Option (List TupleData)
  deriving DecidableEq, Repr

/-- PgCdcExtractor::decode_insert (the Rust question-mark operator becomes
monadic bind). -/
def decode_insert (from_wal : FromWal) (mgr : PgMetaManager) (event : InsertBody) :
    Except DtError PgRowData := do
  let tb_meta ← get_tb_meta_by_oid mgr event.rel_id
  let col_values ← parse_row_data from_wal tb_meta event.tuple
  Except.ok { db := tb_meta.schema
              tb := tb_meta.tb
              row_type := RowType.Insert
              before := Option.none
              after := some col_values
              position := "" }

/-- Fallback computation of the before image from where_cols: each where
column is looked up in the after image (unwrap on None is a panic) and
inserted into a fresh map. -/
def build_before_from_where_cols (col_values_after : ColValues) :
    List String → ColValues → Except DtError ColValues
  | [], col_values_tmp => Except.ok col_values_tmp
  | col :: rest, col_values_tmp =>
    match alookup col_values_after col with
    | Option.none => Except.error (DtError.PanicErr "col_values_after.get(col) on None")
    | some v => build_before_from_where_cols col_values_after rest (ainsert col_values_tmp col v)

/-- PgCdcExtractor::decode_update: after is decoded from new_tuple, before by
the precedence old_tuple, key_tuple, where_cols restriction, empty. -/
def decode_update (from_wal : FromWal) (mgr : PgMetaManager) (event : UpdateBody) :
    Except DtError PgRowData := do
  let tb_meta ← get_tb_meta_by_oid mgr event.rel_id
  let col_values_after ← parse_row_data from_wal tb_meta event.new_tuple
  let before_result : Except DtError ColValues :=
    match event.old_tuple with
    | some old_tuple => parse_row_data from_wal tb_meta old_tuple
    | Option.none =>
      match event.key_tuple with
      | some key_tuple => parse_row_data from_wal tb_meta key_tuple
      | Option.none =>
        if !tb_meta.where_cols.isEmpty then
          build_before_from_where_cols col_values_after tb_meta.where_cols []
        else
          Except.ok []
  let col_values_before ← before_result
  Except.ok { db := tb_meta.schema
              tb := tb_meta.tb
              row_type := RowType.Update
              before := some col_values_before
              after := some col_values_after
              position := "" }

/-- PgCdcExtractor::decode_delete: before is decoded from old_tuple, else
key_tuple, else empty. -/
def decode_delete (from_wal : FromWal) (mgr : PgMetaManager) (event : DeleteBody) :
    Except DtError PgRowData := do
  let tb_meta ← get_tb_meta_by_oid mgr event.rel_id
  let before_result : Except DtError ColValues :=
    match event.old_tuple with
    | some old_tuple => parse_row_data from_wal tb_meta old_tuple
    | Option.none =>
      match event.key_tuple with
      | some key_tuple => parse_row_data from_wal tb_meta key_tuple
      | Option.none => Except.ok []
  let col_values ← before_result
  Except.ok { db := tb_meta.schema
              tb := tb_meta.tb
              row_type := RowType.Delete
              before := some col_values
              after := Option.none
              position := "" }

/-! MySQL snapshot extractor (mysql_snapshot_extractor.rs). -/

/-- Column metadata (ColMeta); the wire type is identified by a name string,
byte-level decoding being abstracted at the driver boundary. -/
structure ColMeta where
  name : String
  typee : String
  deriving DecidableEq, Repr

/-- Per-table metadata of the snapshot extractor (TbMeta). -/
structure TbMeta where
  db : String
  tb : String
  col_meta_map : List (String × ColMeta)
  order_col : Option String
  deriving DecidableEq, Repr

/-- RowData as built by the snapshot extractor (crate-local RowData with an
optional position info). -/
structure MysqlRowData where
  db : String
  tb : String
  before : Option ColValues
  after : Option ColValues
  row_type : RowType
  position_info : Option String
  deriving DecidableEq, Repr

/-- Loop body of MysqlSnapshotExtractor::push_row_to_buffer: every column of
col_meta_map is decoded from the row (get_col_value is the column decoder
applied to the fetched row, passed as a parameter since its byte-level
behaviour lives behind the database driver) and inserted into after. -/
def build_after (get_col_value : ColMeta → Except DtError ColValue) :
    List (String × ColMeta) → ColValues → Except DtError ColValues
  | [], after => Except.ok after
  | (col_name, col_meta) :: rest, after =>
    match get_col_value col_meta with
    | Except.error e => Except.error e
    | Except.ok col_val => build_after get_col_value rest (ainsert after col_name col_val)

/-- MysqlSnapshotExtractor::push_row_to_buffer: builds the after image and
pushes an Insert RowData with no before image. -/
def push_row_to_buffer (get_col_value : ColMeta → Except DtError ColValue)
    (tb_meta : TbMeta) : Except DtError MysqlRowData := do
  let after ← build_after get_col_value tb_meta.col_meta_map []
  Except.ok { db := tb_meta.db
              tb := tb_meta.tb
              before := Option.none
              after := some after
              row_type := RowType.Insert
              position_info := Option.none }

/-- A query issued by the slice scan: the first query has no WHERE clause,
each subsequent query binds the previous slice last order_col value.  Both
carry the LIMIT. -/
inductive IssuedQuery
  | first (limit : Nat)
  | subsequent (bind : Int) (limit : Nat)
  deriving DecidableEq, Repr

/-- Database semantics of one slice query over a table whose rows are listed
in ascending order_col order (rows are identified with their order_col
value, the only column the scan logic observes): no start value means
SELECT * ORDER BY order_col ASC LIMIT n, a start value v means the same
with WHERE order_col > v. -/
def sliceQuery (tbl : List Int) (start : Option Int) (n : Nat) : List Int :=
  match start with
  | Option.none => tbl.take n
  | some v => (tbl.filter fun x => decide (v < x)).take n

/-- Loop body of MysqlSnapshotExtractor::extract_by_slices: issue a slice
query, push every returned row, remember the last returned order_col value
as the next bind, and stop as soon as a slice returns fewer than slice_size
rows.  The fuel argument bounds the number of loop iterations; fuel
exhaustion returns none (the theorems show table length + 1 iterations
always suffice). -/
def extract_slices_loop (tbl : List Int) (slice_size : Nat) :
    Nat → Option Int → Option (List Int × List IssuedQuery)
  | 0, _ => Option.none
  | fuel + 1, start_value =>
    let q := match start_value with
      | Option.none => IssuedQuery.first slice_size
      | some v => IssuedQuery.subsequent v slice_size
    let s := sliceQuery tbl start_value slice_size
    if s.length < slice_size then
      some (s, [q])
    else
      let new_start := match s.getLast? with
        | some v => some v
        | Option.none => start_value
      match extract_slices_loop tbl slice_size fuel new_start with
      | Option.none => Option.none
      | some (rest, qs) => some (s ++ rest, q :: qs)

/-- MysqlSnapshotExtractor::extract_by_slices, started like the code with
ColValue::None as initial start value (no WHERE clause); returns the rows
pushed to the buffer in order and the queries issued in order. -/
def extract_by_slices (tbl : List Int) (slice_size : Nat) :
    Option (List Int × List IssuedQuery) :=
  extract_slices_loop tbl slice_size (tbl.length + 1) Option.none

/-- Specification-side description of the query sequence the slice scan
issues over a remaining row list: one query per slice, each subsequent
query binding the last row of the previous full slice. -/
def qsOf (start : Option Int) (r : List Int) (n : Nat) : List IssuedQuery :=
  (match start with
   | Option.none => IssuedQuery.first n
   | some v => IssuedQuery.subsequent v n) ::
  (if h : n ≤ r.length ∧ 0 < n then
    qsOf (some (r.getD (n - 1) 0)) (r.drop n) n
  else [])
termination_by r.length
decreasing_by
  simp only [List.length_drop]
  omega

/-! Sinker batching contract (dt-connector/src/sinker/base_sinker.rs). -/

/-- The call_batch_fn macro loop: starting from sinked_count, each iteration
computes the window length as the smaller of batch_size and the remaining
row count, stops when it is zero, and otherwise invokes the batch function
with (start, len) before advancing.  The returned list is the sequence of
(start, len) invocations in order. -/
def call_batch_fn_windows (batch_size all_count sinked_count : Nat) : List (Nat × Nat) :=
  if h1 : all_count - sinked_count < batch_size then
    if h2 : all_count - sinked_count = 0 then
      []
    else
      (sinked_count, all_count - sinked_count) ::
        call_batch_fn_windows batch_size all_count (sinked_count + (all_count - sinked_count))
  else
    if h3 : batch_size = 0 then
      []
    else
      (sinked_count, batch_size) ::
        call_batch_fn_windows batch_size all_count (sinked_count + batch_size)
termination_by all_count - sinked_count
decreasing_by
  · omega
  · omega

/-! StarRocks sinker (dt-connector/src/sinker/starrocks/starrocks_sinker.rs). -/

/-- HTTP response of a stream load, as far as check_response observes it:
the status code and the Status field of the JSON body (none when the field
is missing or not the expected string). -/
structure LoadResponse where
  status_code : Nat
  status_field : Option String
  deriving DecidableEq, Repr

/-- StarRocksSinker::check_response: a non-200 status code is an error, and
so is a 200 whose body does not carry Status == Success. -/
def check_response (response : LoadResponse) : Except DtError Unit :=
  if response.status_code ≠ 200 then
    Except.error (DtError.HttpError "stream load request failed, status_code non-200")
  else if response.status_field ≠ some "Success" then
    Except.error (DtError.HttpError "stream load request failed, load_result not Success")
  else
    Except.ok ()

/-- Which path StarRocksSinker::sink_dml takes for a batch. -/
inductive SinkDmlPath
  | empty
  | serial
  | batched
  deriving DecidableEq, Repr

/-- Routing logic of StarRocksSinker::sink_dml: empty input returns at once;
without the batch flag the serial path is taken; with it, the first row
decides: Insert and Delete go through call_batch_fn, anything else is
serial. -/
def sink_dml_route (data : List ConnRowData) (batch : Bool) : SinkDmlPath :=
  match data with
  | [] => SinkDmlPath.empty
  | d :: _ =>
    if !batch then
      SinkDmlPath.serial
    else
      match d.row_type with
      | RowType.Insert => SinkDmlPath.batched
      | RowType.Delete => SinkDmlPath.batched
      | _ => SinkDmlPath.serial

/-- Body construction of StarRocksSinker::send_data: for each row of the
window, the before image is serialized when the window is a delete window,
the after image otherwise; unwrap on a missing image is a panic. -/
def build_load_data (is_delete : Bool) :
    List ConnRowData → Except DtError (List ColValues)
  | [] => Except.ok []
  | rd :: rest =>
    match (if is_delete then rd.before else rd.after) with
    | Option.none => Except.error (DtError.PanicErr "row image unwrap on None")
    | some m =>
      match build_load_data is_delete rest with
      | Except.error e => Except.error e
      | Except.ok tail => Except.ok (m :: tail)

/-- A stream load HTTP request as assembled by send_data / build_request.
The JSON serialization of the body is abstracted as the list of row
objects; the columns header value omits the single-quote characters the
code puts around the op name. -/
structure StreamLoadRequest where
  url : String
  http_method : String
  auth_user : String
  auth_password : Option String
  expect_header : String
  format_header : String
  strip_outer_array_header : String
  columns_header : Option String
  body : List ColValues
  deriving DecidableEq, Repr

/-- StarRocksSinker::build_request: PUT with basic auth (an empty password is
sent as no password), Expect 100-continue, format json,
strip_outer_array true, and a columns __op header exactly when op is
non-empty. -/
def build_request (username password : String) (url op : String) (body : List ColValues) :
    StreamLoadRequest :=
  { url := url
    http_method := "PUT"
    auth_user := username
    auth_password := if password.isEmpty then Option.none else some password
    expect_header := "100-continue"
    format_header := "json"
    strip_outer_array_header := "true"
    columns_header := if op.isEmpty then Option.none else some ("__op=" ++ op)
    body := body }

/-- StarRocksSinker::send_data for the window of batch_size rows starting at
start_index: the first row of the window decides schema, table and whether
this is a delete window; indexing past the end is a panic. -/
def send_data (host port username password : String) (data : List ConnRowData)
    (start_index batch_size : Nat) : Except DtError StreamLoadRequest :=
  match data.get? start_index with
  | Option.none => Except.error (DtError.PanicErr "data index out of range")
  | some first_row =>
    let is_delete := first_row.row_type = RowType.Delete
    match build_load_data is_delete ((data.drop start_index).take batch_size) with
    | Except.error e => Except.error e
    | Except.ok load_data =>
      let op := if is_delete then "delete" else ""
      let url := "http://" ++ host ++ ":" ++ port ++ "/api/" ++ first_row.schema ++ "/" ++
        first_row.tb ++ "/_stream_load"
      Except.ok (build_request username password url op load_data)

/-! Kafka sinker (dt-connector/src/sinker/kafka/rdkafka_sinker.rs). -/

/-- One row of a Kafka batch together with the outcomes of its Avro key and
value conversions and of awaiting its producer delivery future. -/
structure KafkaSendRow where
  key_result : Except DtError (List Nat)
  value_result : Except DtError (List Nat)
  delivery_result : Except String Unit
  deriving Repr

/-- Dispatch loop of RdkafkaSinker::send_avro: every row is converted (a
conversion error aborts immediately) and its in-flight delivery future is
collected; the complete future list is returned before anything is
awaited. -/
def collect_futures : List KafkaSendRow → Except DtError (List (Except String Unit))
  | [] => Except.ok []
  | row :: rest =>
    match row.key_result with
    | Except.error e => Except.error e
    | Except.ok _ =>
      match row.value_result with
      | Except.error e => Except.error e
      | Except.ok _ =>
        match collect_futures rest with
        | Except.error e => Except.error e
        | Except.ok futures => Except.ok (row.delivery_result :: futures)

/-- Await loop of RdkafkaSinker::send_avro: the futures are awaited in
dispatch order and the first delivery error aborts the batch with a
producer-error diagnostic. -/
def await_futures : List (Except String Unit) → Except DtError Unit
  | [] => Except.ok ()
  | future :: rest =>
    match future with
    | Except.error err =>
      Except.error (DtError.Unexpected ("failed in kafka producer, error: " ++ err))
    | Except.ok _ => await_futures rest

/-- RdkafkaSinker::send_avro: dispatch all rows, then await all deliveries. -/
def send_avro (data : List KafkaSendRow) : Except DtError Unit :=
  match collect_futures data with
  | Except.error e => Except.error e
  | Except.ok futures => await_futures futures

/-- First delivery error of a future list, in dispatch order. -/
def first_delivery_error : List (Except String Unit) → Option String
  | [] => Option.none
  | Except.error e :: _ => some e
  | Except.ok _ :: rest => first_delivery_error rest

/-! Concrete fixtures used by counterexamples and witnesses. -/

/-- A Dml row used in concrete batches. -/
def ceDmlRow : ConnRowData :=
  { schema := "db1", tb := "t", row_type := RowType.Insert,
    before := Option.none, after := some [("id", ColValue.long 1)], data_size := 8 }

/-- A Ddl payload used in concrete batches. -/
def ceDdlData : DdlData :=
  { ddl_type := DdlType.AlterTable, query := "alter table db1.t add column c int" }

/-- A non-raw Redis SET entry item at position p1. -/
def ceRedisSetItem : DtItem :=
  { dt_data := DtData.Redis { is_raw := false, cmd_name := "set" },
    position := "p1", data_origin_node := Option.none }

/-- A raw Redis entry whose command name is PING, at position p2. -/
def ceRawPingItem : DtItem :=
  { dt_data := DtData.Redis { is_raw := true, cmd_name := "PING" },
    position := "p2", data_origin_node := Option.none }

/-- WAL decoder fixture: every value decodes to a blob of its bytes. -/
def wFw : FromWal := fun _ value => Except.ok (ColValue.blob value)

/-- Table metadata fixture for db1.t(id, v) with where_cols = [id]. -/
def wPgMeta : PgTbMeta :=
  { schema := "db1", tb := "t", cols := ["id", "v"],
    col_type_map := [("id", "int4"), ("v", "text")], where_cols := ["id"] }

/-- Metadata manager fixture with relation OID 16384 mapped to db1.t. -/
def wPgMgr : PgMetaManager := { oid_to_tb_meta := [(16384, wPgMeta)] }

/-- Update event fixture: key_tuple only, as under REPLICA IDENTITY DEFAULT. -/
def wUpdateEv : UpdateBody :=
  { rel_id := 16384, old_tuple := Option.none, key_tuple := some [TupleData.Text [55]],
    new_tuple := [TupleData.Text [55], TupleData.Text [104]] }

/-- The RowData decode_update produces for wUpdateEv. -/
def wUpdateRd : PgRowData :=
  { db := "db1", tb := "t", row_type := RowType.Update,
    before := some [("id", ColValue.blob [55])],
    after := some [("id", ColValue.blob [55]), ("v", ColValue.blob [104])],
    position := "" }

/-- Insert event fixture. -/
def wInsertEv : InsertBody :=
  { rel_id := 16384, tuple := [TupleData.Text [55], TupleData.Text [103]] }

/-- Delete event fixture with a key tuple only. -/
def wDeleteEv : DeleteBody :=
  { rel_id := 16384, old_tuple := Option.none, key_tuple := some [TupleData.Text [55]] }

/-- Snapshot column decoder fixture. -/
def wGetCol : ColMeta → Except DtError ColValue :=
  fun col_meta => Except.ok (ColValue.str col_meta.name)

/-- Snapshot table metadata fixture. -/
def wTbMeta : TbMeta :=
  { db := "db1", tb := "t",
    col_meta_map := [("id", { name := "id", typee := "long" }),
                     ("v", { name := "v", typee := "varchar" })],
    order_col := some "id" }

/-- Default row used with List.getD. -/
def dRow : ConnRowData :=
  { schema := "", tb := "", row_type := RowType.Insert,
    before := Option.none, after := Option.none, data_size := 0 }

/-- StarRocks batch fixture rows. -/
def wSrRow1 : ConnRowData :=
  { schema := "db1", tb := "t", row_type := RowType.Insert,
    before := Option.none,
    after := some [("id", ColValue.long 1), ("v", ColValue.str "a")], data_size := 10 }

/-- Second StarRocks batch fixture row. -/
def wSrRow2 : ConnRowData :=
  { schema := "db1", tb := "t", row_type := RowType.Insert,
    before := Option.none,
    after := some [("id", ColValue.long 2), ("v", ColValue.str "b")], data_size := 10 }

/-- The stream-load request send_data assembles for the two-row Insert batch
[wSrRow1, wSrRow2]. -/
def wReq : StreamLoadRequest :=
  { url := "http://host:9030/api/db1/t/_stream_load"
    http_method := "PUT"
    auth_user := "root"
    auth_password := Option.none
    expect_header := "100-continue"
    format_header := "json"
    strip_outer_array_header := "true"
    columns_header := Option.none
    body := [[("id", ColValue.long 1), ("v", ColValue.str "a")],
             [("id", ColValue.long 2), ("v", ColValue.str "b")]] }

/-- Kafka batch fixture: three rows whose delivery futures resolve Ok, Err,
Ok. -/
def wKafkaRows : List KafkaSendRow :=
  [{ key_result := Except.ok [], value_result := Except.ok [],
     delivery_result := Except.ok () },
   { key_result := Except.ok [], value_result := Except.ok [],
     delivery_result := Except.error "boom" },
   { key_result := Except.ok [], value_result := Except.ok [],
     delivery_result := Except.ok () }]

/-- The delivery futures of wKafkaRows. -/
def wFutures : List (Except String Unit) :=
  [Except.ok (), Except.error "boom", Except.ok ()]

/-! Theorems. -/

/-- Claim C2 counterexample: a batch that contains a Ddl item is not
classified Ddl when a Dml item precedes it — get_sink_method returns on
the first payload item, so the batch [Dml, Ddl] is classified Dml. -/
theorem get_sink_method_claim_counterexample :
    get_sink_method
      [{ dt_data := DtData.Dml ceDmlRow, position := "p1", data_origin_node := Option.none },
       { dt_data := DtData.Ddl ceDdlData, position := "p2", data_origin_node := Option.none }] =
      SinkMethod.Dml
    ∧ SinkMethod.Dml ≠ SinkMethod.Ddl := by
  exact ⟨rfl, by decide⟩

/-- Claim C2 (amended): get_sink_method classifies a batch by its first item
that is not a Begin/Commit delimiter — Ddl gives Ddl, Dml gives Dml, Redis
gives Raw — skipping Begin and Commit, and defaults to Raw when no such
item exists. -/
theorem get_sink_method_first_payload_wins (l : List DtItem) :
    get_sink_method l =
      match first_payload l with
      | Option.none => SinkMethod.Raw
      | some d => method_of d := by
  induction l with
  | nil => rfl
  | cons i rest ih =>
    cases hd : i.dt_data <;>
      simp [get_sink_method, first_payload, hd, method_of, ih]

/-- Claim C3 (code bug): on a PrimaryKeepAlive with reply flag 1 the
extractor replies with the hard-coded LSN 0/2C280E70, not with the
committed position (here 0/1); the reply timestamp is microseconds since
the Postgres epoch 2000-01-01T00:00:00Z, so a reply sent exactly at the
epoch carries timestamp 0. -/
theorem keepalive_hardcoded_lsn_bug :
    ∃ u, handle_primary_keep_alive 1 (pg_lsn 0 1) (pg_epoch_offset_secs * 1000000) = some u
      ∧ u.write_lsn = hardcoded_standby_lsn
      ∧ u.flush_lsn = hardcoded_standby_lsn
      ∧ u.apply_lsn = hardcoded_standby_lsn
      ∧ u.write_lsn ≠ pg_lsn 0 1
      ∧ u.ts = 0 := by
  refine ⟨_, rfl, rfl, rfl, rfl, ?_, ?_⟩
  · decide
  · exact Nat.sub_self _

/-- Claim C8: a stream-load attempt succeeds exactly when the HTTP status is
200 and the response body carries Status equal to Success; any other
status code, and any 200 whose Status field differs, is an error. -/
theorem check_response_success_iff (response : LoadResponse) :
    check_response response = Except.ok () ↔
      (response.status_code = 200 ∧ response.status_field = some "Success") := by
  unfold check_response
  by_cases h1 : response.status_code = 200 <;>
    by_cases h2 : response.status_field = some "Success" <;>
      simp [h1, h2]

/-- orElseOpt keeps a present first operand. -/
theorem orElseOpt_some {α : Type} (x : α) (b : Option α) : orElseOpt (some x) b = some x := rfl

/-- orElseOpt falls through an absent first operand. -/
theorem orElseOpt_none {α : Type} (b : Option α) : orElseOpt Option.none b = b := rfl

/-- orElseOpt with an absent second operand. -/
theorem orElseOpt_none_right {α : Type} (a : Option α) : orElseOpt a Option.none = a := by
  cases a <;> rfl

/-- orElseOpt is associative. -/
theorem orElseOpt_assoc {α : Type} (a b c : Option α) :
    orElseOpt (orElseOpt a b) c = orElseOpt a (orElseOpt b c) := by
  cases a <;> rfl

/-- getLast? of a cons falls back on the head. -/
theorem getLast?_cons_orElse {α : Type} (a : α) (l : List α) :
    (a :: l).getLast? = orElseOpt l.getLast? (some a) := by
  induction l generalizing a with
  | nil => rfl
  | cons b t ih =>
    rw [List.getLast?_cons_cons, ih b]
    cases h : t.getLast? <;> simp [orElseOpt]

/-- lastPosWhere on a cons whose head satisfies the predicate. -/
theorem lastPosWhere_cons_pos (p : DtItem → Bool) (i : DtItem) (l : List DtItem)
    (h : p i = true) :
    lastPosWhere p (i :: l) = orElseOpt (lastPosWhere p l) (some i.position) := by
  unfold lastPosWhere
  rw [List.filter_cons_of_pos h, getLast?_cons_orElse]
  cases hx : (List.filter p l).getLast? <;> simp [orElseOpt]

/-- lastPosWhere on a cons whose head fails the predicate. -/
theorem lastPosWhere_cons_neg (p : DtItem → Bool) (i : DtItem) (l : List DtItem)
    (h : p i = false) :
    lastPosWhere p (i :: l) = lastPosWhere p l := by
  unfold lastPosWhere
  rw [List.filter_cons_of_neg (by simp [h])]

/-- Characterization of the fetch_dml loop for any accumulator state. -/
theorem fetch_dml_loop_eq (l : List DtItem) :
    ∀ (acc : List ConnRowData) (r c : Option Position),
      fetch_dml_loop l acc r c =
        (acc ++ dmlPayloads l,
         orElseOpt (lastPosWhere (fun i => isDml i || isCommit i) l) r,
         orElseOpt (lastPosWhere isCommit l) c) := by
  induction l with
  | nil =>
    intro acc r c
    simp [fetch_dml_loop, dmlPayloads, lastPosWhere, orElseOpt]
  | cons i rest ih =>
    intro acc r c
    obtain ⟨d, pos, node⟩ := i
    cases d <;>
      simp [fetch_dml_loop, dmlPayloads, List.filterMap_cons, ih,
        lastPosWhere_cons_pos, lastPosWhere_cons_neg, isDml, isCommit,
        orElseOpt_assoc, orElseOpt_some, orElseOpt_none]

/-- Characterization of the fetch_ddl loop for any accumulator state. -/
theorem fetch_ddl_loop_eq (l : List DtItem) :
    ∀ (acc : List DdlData) (r c : Option Position),
      fetch_ddl_loop l acc r c =
        (acc ++ ddlPayloads l,
         orElseOpt (lastPosWhere (fun i => isDdl i || isCommit i) l) r,
         orElseOpt (lastPosWhere isCommit l) c) := by
  induction l with
  | nil =>
    intro acc r c
    simp [fetch_ddl_loop, ddlPayloads, lastPosWhere, orElseOpt]
  | cons i rest ih =>
    intro acc r c
    obtain ⟨d, pos, node⟩ := i
    cases d <;>
      simp [fetch_ddl_loop, ddlPayloads, List.filterMap_cons, ih,
        lastPosWhere_cons_pos, lastPosWhere_cons_neg, isDdl, isCommit,
        orElseOpt_assoc, orElseOpt_some, orElseOpt_none]

/-- Characterization of the fetch_raw loop for any accumulator state. -/
theorem fetch_raw_loop_eq (l : List DtItem) :
    ∀ (acc : List DtData) (r c : Option Position),
      fetch_raw_loop l acc r c =
        (acc ++ rawPayloads l,
         orElseOpt (lastPosWhere (fun i => !isBegin i) l) r,
         orElseOpt (lastPosWhere (fun i => isCommit i || isRedis i) l) c) := by
  induction l with
  | nil =>
    intro acc r c
    simp [fetch_raw_loop, rawPayloads, lastPosWhere, orElseOpt]
  | cons i rest ih =>
    intro acc r c
    obtain ⟨d, pos, node⟩ := i
    cases d with
    | Redis entry =>
      cases hping : (!entry.is_raw && eq_ignore_ascii_case entry.cmd_name "ping") <;>
        simp [fetch_raw_loop, rawPayloads, rawKeep, List.filterMap_cons, hping, ih,
          lastPosWhere_cons_pos, lastPosWhere_cons_neg, isBegin, isCommit, isRedis,
          orElseOpt_assoc, orElseOpt_some, orElseOpt_none]
    | _ =>
      simp [fetch_raw_loop, rawPayloads, rawKeep, List.filterMap_cons, ih,
        lastPosWhere_cons_pos, lastPosWhere_cons_neg, isBegin, isCommit, isRedis,
        orElseOpt_assoc, orElseOpt_some, orElseOpt_none]

/-- Claim C1 counterexample: a Redis item in fetch_raw updates last_commit as
well (the claim says Redis updates last_received only, so last_commit
would have to stay none), and a raw Redis entry named PING is kept in the
Raw output (the claim says Redis PING entries are dropped). -/
theorem fetch_positions_claim_counterexample :
    (fetch_raw [ceRedisSetItem]).2.2 = some "p1"
    ∧ ¬ (fetch_raw [ceRedisSetItem]).2.2 = Option.none
    ∧ (fetch_raw [ceRawPingItem]).1 =
        [DtData.Redis { is_raw := true, cmd_name := "PING" }] := by
  refine ⟨rfl, ?_, rfl⟩
  intro h
  simp [fetch_raw, fetch_raw_loop, ceRedisSetItem, eq_ignore_ascii_case] at h

/-- Claim C1 (amended): in fetch_dml, fetch_ddl and fetch_raw, every Commit
item updates both last_received and last_commit and is dropped; Dml items
(fetch_dml) and Ddl items (fetch_ddl) update last_received only; Begin is
dropped without updating positions; Redis items in fetch_raw update BOTH
last_received and last_commit, and only the Redis PING entries that are
not raw are dropped from the Raw output stream (raw entries are kept
regardless of command name).  Equivalently: the payload outputs are the
corresponding filtered payload sequences, last_received is the position of
the last item of the respective receiving class, and last_commit the
position of the last committing item. -/
theorem fetch_positions_amended (l : List DtItem) :
    fetch_dml l =
      (dmlPayloads l,
       lastPosWhere (fun i => isDml i || isCommit i) l,
       lastPosWhere isCommit l)
    ∧ fetch_ddl l =
      (ddlPayloads l,
       lastPosWhere (fun i => isDdl i || isCommit i) l,
       lastPosWhere isCommit l)
    ∧ fetch_raw l =
      (rawPayloads l,
       lastPosWhere (fun i => !isBegin i) l,
       lastPosWhere (fun i => isCommit i || isRedis i) l) := by
  refine ⟨?_, ?_, ?_⟩
  · rw [fetch_dml, fetch_dml_loop_eq]
    simp [orElseOpt_none_right]
  · rw [fetch_ddl, fetch_ddl_loop_eq]
    simp [orElseOpt_none_right]
  · rw [fetch_raw, fetch_raw_loop_eq]
    simp [orElseOpt_none_right]

/-- A successful dispatch phase collects exactly the delivery futures of all
rows, in row order. -/
theorem collect_futures_ok (data : List KafkaSendRow) :
    ∀ fs, collect_futures data = Except.ok fs →
      fs = data.map KafkaSendRow.delivery_result := by
  induction data with
  | nil =>
    intro fs h
    simp [collect_futures] at h
    simp [← h]
  | cons row rest ih =>
    intro fs h
    unfold collect_futures at h
    cases hk : row.key_result with
    | error e => rw [hk] at h; cases h
    | ok k =>
      rw [hk] at h
      cases hv : row.value_result with
      | error e => rw [hv] at h; cases h
      | ok v =>
        rw [hv] at h
        cases hc : collect_futures rest with
        | error e => rw [hc] at h; cases h
        | ok futures =>
          rw [hc] at h
          cases h
          simp [ih futures hc]

/-- Awaiting succeeds exactly when every future resolved Ok. -/
theorem await_futures_ok_iff (fs : List (Except String Unit)) :
    await_futures fs = Except.ok () ↔ ∀ f ∈ fs, f = Except.ok () := by
  induction fs with
  | nil => simp [await_futures]
  | cons f rest ih =>
    cases f with
    | error e => simp [await_futures]
    | ok u => cases u; simp [await_futures, ih]

/-- Awaiting reports the first delivery error, in dispatch order. -/
theorem await_futures_first_error (fs : List (Except String Unit)) :
    ∀ e, first_delivery_error fs = some e →
      await_futures fs =
        Except.error (DtError.Unexpected ("failed in kafka producer, error: " ++ e)) := by
  induction fs with
  | nil => intro e h; cases h
  | cons f rest ih =>
    intro e h
    cases f with
    | error e0 =>
      cases h
      rfl
    | ok u => exact ih e h

/-- When no delivery future failed, every future resolved Ok. -/
theorem first_delivery_error_none (fs : List (Except String Unit)) :
    first_delivery_error fs = Option.none → ∀ f ∈ fs, f = Except.ok () := by
  induction fs with
  | nil =>
    intro _ f hf
    cases hf
  | cons g rest ih =>
    intro h f hf
    cases g with
    | error e => simp [first_delivery_error] at h
    | ok u =>
      cases u
      cases hf with
      | head => rfl
      | tail _ hm => exact ih h f hm

/-- Claim C10: the Kafka sinker dispatches all rows, collecting every
delivery future before any result is awaited (the awaited list is the full
map of delivery results over the batch); send_avro then succeeds exactly
when every delivery future resolves Ok, and otherwise returns the
producer-error diagnostic of the first failed delivery. -/
theorem send_avro_error_iff (data : List KafkaSendRow) (fs : List (Except String Unit))
    (hc : collect_futures data = Except.ok fs) :
    fs = data.map KafkaSendRow.delivery_result
    ∧ send_avro data = await_futures fs
    ∧ (first_delivery_error fs = Option.none → send_avro data = Except.ok ())
    ∧ (∀ e, first_delivery_error fs = some e →
        send_avro data =
          Except.error (DtError.Unexpected ("failed in kafka producer, error: " ++ e)))
    ∧ (send_avro data = Except.ok () ↔ ∀ f ∈ fs, f = Except.ok ()) := by
  have hsend : send_avro data = await_futures fs := by
    unfold send_avro
    rw [hc]
  refine ⟨collect_futures_ok data fs hc, hsend, ?_, ?_, ?_⟩
  · intro hnone
    rw [hsend, await_futures_ok_iff]
    exact first_delivery_error_none fs hnone
  · intro e he
    rw [hsend]
    exact await_futures_first_error fs e he
  · rw [hsend]
    exact await_futures_ok_iff fs

/-- Claim C10 witness: three rows with delivery futures Ok, Err, Ok — the
futures are all collected, and the sinker returns the producer error of
the second row. -/
theorem send_avro_error_iff_witness :
    wFutures = wKafkaRows.map KafkaSendRow.delivery_result
    ∧ send_avro wKafkaRows =
        Except.error (DtError.Unexpected ("failed in kafka producer, error: " ++ "boom")) := by
  have h := send_avro_error_iff wKafkaRows wFutures rfl
  exact ⟨h.1, h.2.2.2.1 "boom" rfl⟩

/-- A successful body construction serializes one object per window row: the
before image on a delete window, the after image otherwise. -/
theorem build_load_data_ok (is_delete : Bool) :
    ∀ (w : List ConnRowData) (body : List ColValues),
      build_load_data is_delete w = Except.ok body →
        body.length = w.length
        ∧ ∀ i, i < w.length →
            some (body.getD i []) =
              (if is_delete then (w.getD i dRow).before else (w.getD i dRow).after) := by
  intro w
  induction w with
  | nil =>
    intro body h
    simp [build_load_data] at h
    subst h
    exact ⟨rfl, fun i hi => absurd hi (by simp)⟩
  | cons rd rest ih =>
    intro body h
    unfold build_load_data at h
    cases himg : (if is_delete then rd.before else rd.after) with
    | none => rw [himg] at h; cases h
    | some m =>
      rw [himg] at h
      cases hrest : build_load_data is_delete rest with
      | error e => rw [hrest] at h; cases h
      | ok tail =>
        rw [hrest] at h
        cases h
        obtain ⟨hlen, hidx⟩ := ih tail hrest
        refine ⟨by simp [hlen], ?_⟩
        intro i hi
        cases i with
        | zero => simp [himg]
        | succ j =>
          simp only [List.getD_cons_succ]
          exact hidx j (by simpa using hi)

/-- Evaluation fact: the op string delete is non-empty. -/
theorem op_delete_not_empty : ("delete" : String).isEmpty = false := rfl

/-- Evaluation fact: the empty op string is empty. -/
theorem op_nil_empty : ("" : String).isEmpty = true := rfl

/-- Claim C9: with the batch flag set, StarRocksSinker::sink_dml routes a
batch by its first row — Insert and Delete go through the batched stream
load, every other row type takes the serial path — and each stream-load
window serializes the before image of every row exactly when the window
first row is a Delete (the after image otherwise), with the columns __op
delete header present exactly in that case. -/
theorem starrocks_sink_dml_batching :
    (∀ (d : ConnRowData) (rest : List ConnRowData),
        (sink_dml_route (d :: rest) true = SinkDmlPath.batched ↔
          (d.row_type = RowType.Insert ∨ d.row_type = RowType.Delete))
        ∧ (sink_dml_route (d :: rest) true = SinkDmlPath.serial ↔
          d.row_type = RowType.Update))
    ∧ (∀ (host port user pass : String) (data : List ConnRowData) (s b : Nat)
        (first_row : ConnRowData) (req : StreamLoadRequest),
        data.get? s = some first_row →
        send_data host port user pass data s b = Except.ok req →
          ((req.columns_header = some ("__op=" ++ "delete")) ↔
            first_row.row_type = RowType.Delete)
          ∧ req.body.length = ((data.drop s).take b).length
          ∧ (∀ i, i < ((data.drop s).take b).length →
              some (req.body.getD i []) =
                (if first_row.row_type = RowType.Delete
                 then (((data.drop s).take b).getD i dRow).before
                 else (((data.drop s).take b).getD i dRow).after))) := by
  constructor
  · intro d rest
    cases hrt : d.row_type <;> simp [sink_dml_route, hrt]
  · intro host port user pass data s b first_row req hget hsend
    unfold send_data at hsend
    rw [hget] at hsend
    simp only at hsend
    cases hbld : build_load_data (decide (first_row.row_type = RowType.Delete))
        ((data.drop s).take b) with
    | error e => rw [hbld] at hsend; cases hsend
    | ok load_data =>
      rw [hbld] at hsend
      cases hsend
      obtain ⟨hlen, hidx⟩ :=
        build_load_data_ok (decide (first_row.row_type = RowType.Delete))
          ((data.drop s).take b) load_data hbld
      by_cases hdel : first_row.row_type = RowType.Delete
      · refine ⟨?_, ?_, ?_⟩
        · simp [build_request, hdel, op_delete_not_empty]
        · simpa [build_request] using hlen
        · intro i hi
          have := hidx i hi
          simpa [build_request, hdel] using this
      · refine ⟨?_, ?_, ?_⟩
        · simp [build_request, hdel, op_nil_empty]
        · simpa [build_request] using hlen
        · intro i hi
          have := hidx i hi
          simpa [build_request, hdel] using this

/-- Claim C9 witness: the two-row Insert batch [wSrRow1, wSrRow2] is routed
to the batched path, and its stream-load window carries the two after
images with no columns header. -/
theorem starrocks_sink_dml_batching_witness :
    sink_dml_route [wSrRow1, wSrRow2] true = SinkDmlPath.batched
    ∧ send_data "host" "9030" "root" "" [wSrRow1, wSrRow2] 0 10 = Except.ok wReq
    ∧ ¬ (wReq.columns_header = some ("__op=" ++ "delete"))
    ∧ wReq.body.length = (([wSrRow1, wSrRow2].drop 0).take 10).length := by
  have h := (starrocks_sink_dml_batching).2 "host" "9030" "root" "" [wSrRow1, wSrRow2]
    0 10 wSrRow1 wReq rfl rfl
  refine ⟨?_, rfl, ?_, h.2.1⟩
  · exact ((starrocks_sink_dml_batching).1 wSrRow1 [wSrRow2]).1.mpr (Or.inl rfl)
  · intro hc
    have hd := h.1.mp hc
    simp [wSrRow1] at hd

/-- Invariant of the call_batch_fn loop from an arbitrary progress point:
the window lengths sum to the remaining row count, every window is
non-empty and at most batch_size long, and each window starts where the
previous windows ended. -/
theorem call_batch_fn_windows_go (bs n : Nat) (hbs : 0 < bs) :
    ∀ (k s : Nat), n - s ≤ k →
      (((call_batch_fn_windows bs n s).map Prod.snd).sum = n - s)
      ∧ (∀ w ∈ call_batch_fn_windows bs n s, 0 < w.2 ∧ w.2 ≤ bs)
      ∧ (∀ i, i < (call_batch_fn_windows bs n s).length →
          ((call_batch_fn_windows bs n s).getD i (0, 0)).1 =
            s + (((call_batch_fn_windows bs n s).take i).map Prod.snd).sum) := by
  intro k
  induction k with
  | zero =>
    intro s hk
    rw [call_batch_fn_windows, dif_pos (by omega : n - s < bs), dif_pos (by omega : n - s = 0)]
    refine ⟨by simpa using (by omega : 0 = n - s), by simp, by simp⟩
  | succ k ih =>
    intro s hk
    by_cases h0 : n - s = 0
    · rw [call_batch_fn_windows, dif_pos (by omega : n - s < bs), dif_pos h0]
      refine ⟨by simpa using (by omega : 0 = n - s), by simp, by simp⟩
    · by_cases hlt : n - s < bs
      · rw [call_batch_fn_windows, dif_pos hlt, dif_neg h0]
        obtain ⟨ihsum, ihmem, ihidx⟩ := ih (s + (n - s)) (by omega)
        refine ⟨?_, ?_, ?_⟩
        · simp only [List.map_cons, List.sum_cons, ihsum]
          omega
        · intro w hw
          rcases List.mem_cons.mp hw with hweq | hwmem
          · subst hweq
            exact ⟨by omega, by omega⟩
          · exact ihmem w hwmem
        · intro i hi
          cases i with
          | zero => simp
          | succ j =>
            simp only [List.getD_cons_succ, List.take_succ_cons, List.map_cons,
              List.sum_cons]
            rw [ihidx j (by simpa using hi)]
            omega
      · rw [call_batch_fn_windows, dif_neg hlt, dif_neg (by omega : ¬ bs = 0)]
        obtain ⟨ihsum, ihmem, ihidx⟩ := ih (s + bs) (by omega)
        refine ⟨?_, ?_, ?_⟩
        · simp only [List.map_cons, List.sum_cons, ihsum]
          omega
        · intro w hw
          rcases List.mem_cons.mp hw with hweq | hwmem
          · subst hweq
            exact ⟨hbs, le_refl bs⟩
          · exact ihmem w hwmem
        · intro i hi
          cases i with
          | zero => simp
          | succ j =>
            simp only [List.getD_cons_succ, List.take_succ_cons, List.map_cons,
              List.sum_cons]
            rw [ihidx j (by simpa using hi)]
            omega

/-- Claim C7: for a positive batch_size, the call_batch_fn loop partitions
the input into contiguous windows of at most batch_size rows — the window
lengths sum to the row count (so the loop halts exactly when all rows are
consumed), every window is non-empty and bounded by batch_size, and the
windows are invoked in ascending order with each start index equal to the
number of rows already consumed. -/
theorem call_batch_fn_partitions (batch_size all_count : Nat) (h : 0 < batch_size) :
    (((call_batch_fn_windows batch_size all_count 0).map Prod.snd).sum = all_count)
    ∧ (∀ w ∈ call_batch_fn_windows batch_size all_count 0, 0 < w.2 ∧ w.2 ≤ batch_size)
    ∧ (∀ i, i < (call_batch_fn_windows batch_size all_count 0).length →
        ((call_batch_fn_windows batch_size all_count 0).getD i (0, 0)).1 =
          (((call_batch_fn_windows batch_size all_count 0).take i).map Prod.snd).sum) := by
  have hgo := call_batch_fn_windows_go batch_size all_count h all_count 0 (by omega)
  refine ⟨by simpa using hgo.1, hgo.2.1, ?_⟩
  intro i hi
  have := hgo.2.2 i hi
  simpa using this

/-- Claim C7 witness: five rows with batch_size 2 are consumed in full, the
window lengths summing to 5. -/
theorem call_batch_fn_partitions_witness :
    ((call_batch_fn_windows 2 5 0).map Prod.snd).sum = 5 :=
  (call_batch_fn_partitions 2 5 (by decide)).1

/-- Inversion of a successful monadic bind on Except. -/
theorem except_bind_ok {A B : Type} (x : Except DtError A) (f : A → Except DtError B) (b : B)
    (h : (do let a ← x; f a) = Except.ok b) : ∃ a, x = Except.ok a ∧ f a = Except.ok b := by
  cases x with
  | error e => cases h
  | ok a => exact ⟨a, rfl, h⟩

/-- Claim C6: every RowData emitted by the CDC insert/update/delete decoders
and by the snapshot extractor satisfies the presence rule — Insert carries
an after image and no before image, Delete carries a before image and no
after image, Update carries both. -/
theorem row_data_presence_invariant :
    (∀ (fw : FromWal) (mgr : PgMetaManager) (ev : InsertBody) (rd : PgRowData),
        decode_insert fw mgr ev = Except.ok rd →
          rd.row_type = RowType.Insert ∧ rd.before = Option.none ∧ rd.after.isSome = true)
    ∧ (∀ (fw : FromWal) (mgr : PgMetaManager) (ev : UpdateBody) (rd : PgRowData),
        decode_update fw mgr ev = Except.ok rd →
          rd.row_type = RowType.Update ∧ rd.before.isSome = true ∧ rd.after.isSome = true)
    ∧ (∀ (fw : FromWal) (mgr : PgMetaManager) (ev : DeleteBody) (rd : PgRowData),
        decode_delete fw mgr ev = Except.ok rd →
          rd.row_type = RowType.Delete ∧ rd.before.isSome = true ∧ rd.after = Option.none)
    ∧ (∀ (get_col_value : ColMeta → Except DtError ColValue) (tb_meta : TbMeta)
        (rd : MysqlRowData),
        push_row_to_buffer get_col_value tb_meta = Except.ok rd →
          rd.row_type = RowType.Insert ∧ rd.before = Option.none ∧ rd.after.isSome = true) := by
  refine ⟨?_, ?_, ?_, ?_⟩
  · intro fw mgr ev rd h
    unfold decode_insert at h
    obtain ⟨tb_meta, hm, h⟩ := except_bind_ok _ _ _ h
    obtain ⟨col_values, hp, h⟩ := except_bind_ok _ _ _ h
    cases h
    exact ⟨rfl, rfl, rfl⟩
  · intro fw mgr ev rd h
    unfold decode_update at h
    obtain ⟨tb_meta, hm, h⟩ := except_bind_ok _ _ _ h
    obtain ⟨col_values_after, hp, h⟩ := except_bind_ok _ _ _ h
    obtain ⟨col_values_before, hb, h⟩ := except_bind_ok _ _ _ h
    cases h
    exact ⟨rfl, rfl, rfl⟩
  · intro fw mgr ev rd h
    unfold decode_delete at h
    obtain ⟨tb_meta, hm, h⟩ := except_bind_ok _ _ _ h
    obtain ⟨col_values, hb, h⟩ := except_bind_ok _ _ _ h
    cases h
    exact ⟨rfl, rfl, rfl⟩
  · intro get_col_value tb_meta rd h
    unfold push_row_to_buffer at h
    obtain ⟨after, hb, h⟩ := except_bind_ok _ _ _ h
    cases h
    exact ⟨rfl, rfl, rfl⟩

/-- Claim C6 witness: the decoded insert fixture satisfies the presence
rule. -/
theorem row_data_presence_invariant_witness :
    decode_insert wFw wPgMgr wInsertEv =
      Except.ok { db := "db1", tb := "t", row_type := RowType.Insert,
                  before := Option.none,
                  after := some [("id", ColValue.blob [55]), ("v", ColValue.blob [103])],
                  position := "" }
    ∧ ({ db := "db1", tb := "t", row_type := RowType.Insert,
         before := Option.none,
         after := some [("id", ColValue.blob [55]), ("v", ColValue.blob [103])],
         position := "" } : PgRowData).row_type = RowType.Insert
    ∧ ({ db := "db1", tb := "t", row_type := RowType.Insert,
         before := Option.none,
         after := some [("id", ColValue.blob [55]), ("v", ColValue.blob [103])],
         position := "" } : PgRowData).before = Option.none
    ∧ ({ db := "db1", tb := "t", row_type := RowType.Insert,
         before := Option.none,
         after := some [("id", ColValue.blob [55]), ("v", ColValue.blob [103])],
         position := "" } : PgRowData).after.isSome = true := by
  refine ⟨rfl, ?_⟩
  exact row_data_presence_invariant.1 wFw wPgMgr wInsertEv _ rfl

/-- Lookup after an association-list insert. -/
theorem alookup_ainsert {α : Type} (m : List (String × α)) (k q : String) (v : α) :
    alookup (ainsert m k v) q = if (k == q) then some v else alookup m q := by
  induction m with
  | nil => simp [ainsert, alookup]
  | cons p rest ih =>
    obtain ⟨k0, v0⟩ := p
    by_cases h0 : k0 = k
    · subst h0
      simp only [ainsert, beq_self_eq_true, if_true, alookup]
      by_cases hq : k0 = q
      · subst hq
        simp [alookup]
      · have hb : (k0 == q) = false := beq_eq_false_iff_ne.mpr hq
        simp [alookup, hb]
    · have hb : (k0 == k) = false := beq_eq_false_iff_ne.mpr h0
      simp only [ainsert, hb, Bool.false_eq_true, if_false, alookup]
      by_cases hq : k0 = q
      · subst hq
        have hkq : (k == k0) = false := beq_eq_false_iff_ne.mpr fun hh => h0 hh.symm
        simp [alookup, hkq]
      · have hqb : (k0 == q) = false := beq_eq_false_iff_ne.mpr hq
        simp [alookup, hqb, ih]

/-- Extensional description of the where_cols fallback: looking up a column
in a successfully built before image gives the after value on where
columns and falls back to the accumulator elsewhere. -/
theorem build_before_lookup (after : ColValues) :
    ∀ (cols : List String) (acc bf : ColValues),
      build_before_from_where_cols after cols acc = Except.ok bf →
      ∀ col, alookup bf col =
        if col ∈ cols then alookup after col else alookup acc col := by
  intro cols
  induction cols with
  | nil =>
    intro acc bf h col
    cases h
    simp
  | cons c cs ih =>
    intro acc bf h col
    unfold build_before_from_where_cols at h
    cases hl : alookup after c with
    | none =>
      simp only [hl] at h
      cases h
    | some v =>
      simp only [hl] at h
      rw [ih (ainsert acc c v) bf h col]
      by_cases hcs : col ∈ cs
      · simp [hcs]
      · by_cases hc : col = c
        · subst hc
          simp [hcs, alookup_ainsert, hl]
        · have : (c == col) = false := by simp; exact fun hh => hc hh.symm
          simp [hcs, hc, alookup_ainsert, this]

/-- Claim C5: for a decoded Update event, after is the decoded new_tuple and
before follows the precedence — the decoded old_tuple when present, else
the decoded key_tuple when present, else (for non-empty where_cols) the
restriction of after to the where columns, else the empty mapping. -/
theorem decode_update_before_precedence (fw : FromWal) (mgr : PgMetaManager)
    (ev : UpdateBody) (tb_meta : PgTbMeta) (rd : PgRowData)
    (hmeta : get_tb_meta_by_oid mgr ev.rel_id = Except.ok tb_meta)
    (hok : decode_update fw mgr ev = Except.ok rd) :
    ∃ af, parse_row_data fw tb_meta ev.new_tuple = Except.ok af ∧ rd.after = some af
      ∧ (∀ t, ev.old_tuple = some t →
          ∃ bf, parse_row_data fw tb_meta t = Except.ok bf ∧ rd.before = some bf)
      ∧ (ev.old_tuple = Option.none → ∀ t, ev.key_tuple = some t →
          ∃ bf, parse_row_data fw tb_meta t = Except.ok bf ∧ rd.before = some bf)
      ∧ (ev.old_tuple = Option.none → ev.key_tuple = Option.none →
          tb_meta.where_cols ≠ [] →
          ∃ bf, rd.before = some bf ∧
            ∀ col, alookup bf col =
              if col ∈ tb_meta.where_cols then alookup af col else Option.none)
      ∧ (ev.old_tuple = Option.none → ev.key_tuple = Option.none →
          tb_meta.where_cols = [] → rd.before = some []) := by
  unfold decode_update at hok
  obtain ⟨tb_meta2, hm2, hok⟩ := except_bind_ok _ _ _ hok
  rw [hmeta] at hm2
  cases hm2
  obtain ⟨af, haf, hok⟩ := except_bind_ok _ _ _ hok
  obtain ⟨bf, hbf, hok⟩ := except_bind_ok _ _ _ hok
  cases hok
  refine ⟨af, haf, rfl, ?_, ?_, ?_, ?_⟩
  · intro t ht
    simp only [ht] at hbf
    exact ⟨bf, hbf, rfl⟩
  · intro hold t hkey
    simp only [hold, hkey] at hbf
    exact ⟨bf, hbf, rfl⟩
  · intro hold hkey hwc
    simp only [hold, hkey] at hbf
    cases hw : tb_meta.where_cols with
    | nil => exact absurd hw hwc
    | cons c cs =>
      rw [hw] at hbf
      simp only [List.isEmpty_cons, Bool.not_false, if_true] at hbf
      refine ⟨bf, rfl, ?_⟩
      intro col
      have hlk := build_before_lookup af (c :: cs) [] bf hbf col
      rw [hlk]
      by_cases hmem : col ∈ c :: cs <;> simp [hmem, alookup]
  · intro hold hkey hwc
    simp only [hold, hkey, hwc] at hbf
    simp only [List.isEmpty_nil, Bool.not_true] at hbf
    cases hbf
    rfl

/-- Claim C5 witness: the key-tuple update fixture decodes with after taken
from new_tuple and before from the key tuple. -/
theorem decode_update_before_precedence_witness :
    decode_update wFw wPgMgr wUpdateEv = Except.ok wUpdateRd
    ∧ wUpdateRd.after = some [("id", ColValue.blob [55]), ("v", ColValue.blob [104])]
    ∧ wUpdateRd.before = some [("id", ColValue.blob [55])] := by
  have h := decode_update_before_precedence wFw wPgMgr wUpdateEv wPgMeta wUpdateRd rfl rfl
  obtain ⟨af, haf, hafter, hold, hkey, hwc, hempty⟩ := h
  refine ⟨rfl, ?_, ?_⟩
  · have he : parse_row_data wFw wPgMeta wUpdateEv.new_tuple =
        Except.ok [("id", ColValue.blob [55]), ("v", ColValue.blob [104])] := rfl
    rw [haf] at he
    cases he
    exact hafter
  · obtain ⟨bf, hbf, hbefore⟩ := hkey rfl [TupleData.Text [55]] rfl
    have he : parse_row_data wFw wPgMeta [TupleData.Text [55]] =
        Except.ok [("id", ColValue.blob [55])] := rfl
    rw [hbf] at he
    cases he
    exact hbefore

/-- In a strictly sorted list, no element exceeds the last one. -/
theorem sorted_getLast_max (a : List Int) :
    ∀ v : Int, a.Pairwise (· < ·) → a.getLast? = some v → ∀ y ∈ a, ¬ v < y := by
  induction a with
  | nil =>
    intro v _ hv
    cases hv
  | cons x t ih =>
    intro v hp hv y hy
    obtain ⟨hx, hpt⟩ := List.pairwise_cons.mp hp
    cases t with
    | nil =>
      have hvx : x = v := by simpa using hv
      have hyx : y = x := by simpa using hy
      subst hvx
      subst hyx
      exact lt_irrefl y
    | cons b t2 =>
      rw [List.getLast?_cons_cons] at hv
      have hvmem : v ∈ b :: t2 := by
        rw [List.getLast?_eq_getElem?] at hv
        exact List.getElem?_mem hv
      rcases List.mem_cons.mp hy with hyx | hy2
      · subst hyx
        intro hlt
        exact absurd (hx v hvmem) (lt_asymm hlt)
      · exact ih v hpt hv y hy2

/-- In a strictly sorted concatenation, filtering for values above the last
element of the prefix yields exactly the suffix — the semantics of the
slice WHERE clause. -/
theorem filter_gt_getLast (a r : List Int) (v : Int)
    (hs : (a ++ r).Pairwise (· < ·)) (hv : a.getLast? = some v) :
    (a ++ r).filter (fun x => decide (v < x)) = r := by
  obtain ⟨hpa, hpr, hcross⟩ := List.pairwise_append.mp hs
  have hvmem : v ∈ a := by
    rw [List.getLast?_eq_getElem?] at hv
    exact List.getElem?_mem hv
  rw [List.filter_append]
  have h1 : a.filter (fun x => decide (v < x)) = [] := by
    rw [List.filter_eq_nil_iff]
    intro x hx
    simp only [decide_eq_true_eq]
    exact sorted_getLast_max a v hpa hv x hx
  have h2 : r.filter (fun x => decide (v < x)) = r := by
    rw [List.filter_eq_self]
    intro x hx
    simp only [decide_eq_true_eq]
    exact hcross v hvmem x hx
  rw [h1, h2, List.nil_append]

/-- The slice-scan loop, started after any already-scanned sorted prefix,
terminates within the fuel bound, pushes exactly the remaining rows, and
issues the query sequence qsOf. -/
theorem extract_slices_loop_eq (tbl : List Int) (n : Nat) (hn : 0 < n)
    (hs : tbl.Pairwise (· < ·)) :
    ∀ (fuel : Nat) (a r : List Int), tbl = a ++ r → r.length < fuel →
      extract_slices_loop tbl n fuel a.getLast? = some (r, qsOf a.getLast? r n) := by
  intro fuel
  induction fuel with
  | zero =>
    intro a r _ h
    omega
  | succ fuel ih =>
    intro a r htbl hlen
    have hslice : sliceQuery tbl a.getLast? n = r.take n := by
      cases ha : a.getLast? with
      | none =>
        have ha2 : a = [] := List.getLast?_eq_none_iff.mp ha
        subst ha2
        rw [htbl]
        simp [sliceQuery]
      | some v =>
        simp only [sliceQuery]
        rw [htbl, filter_gt_getLast a r v (htbl ▸ hs) ha]
    by_cases hr : r.length < n
    · have hslen : (sliceQuery tbl a.getLast? n).length < n := by
        rw [hslice, List.length_take]
        omega
      have htk : r.take n = r := List.take_of_length_le (by omega)
      simp only [extract_slices_loop]
      rw [if_pos hslen, hslice, htk, qsOf.eq_def,
        dif_neg (by omega : ¬ (n ≤ r.length ∧ 0 < n))]
    · have hslen : ¬ (sliceQuery tbl a.getLast? n).length < n := by
        rw [hslice, List.length_take]
        omega
      have hlast : (sliceQuery tbl a.getLast? n).getLast? = some (r.getD (n - 1) 0) := by
        rw [hslice, List.getLast?_eq_getElem?, List.length_take]
        have hmin : n ⊓ r.length = n := by omega
        rw [hmin, List.getElem?_take, if_pos (by omega : n - 1 < n),
          List.getD_eq_getElem?_getD, List.getElem?_eq_getElem (by omega : n - 1 < r.length)]
        simp
      have htail : tbl = (a ++ r.take n) ++ r.drop n := by
        rw [List.append_assoc, List.take_append_drop]
        exact htbl
      have htkne : r.take n ≠ [] := by
        intro hemp
        have hc := congrArg List.length hemp
        rw [List.length_take] at hc
        simp only [List.length_nil] at hc
        omega
      have hlast2 : (a ++ r.take n).getLast? = some (r.getD (n - 1) 0) := by
        rw [List.getLast?_append_of_ne_nil a htkne, ← hslice, hlast]
      have ihr := ih (a ++ r.take n) (r.drop n) htail
        (by rw [List.length_drop]; omega)
      rw [hlast2] at ihr
      simp only [extract_slices_loop]
      rw [if_neg hslen, hlast]
      simp only []
      rw [ihr]
      simp only []
      rw [hslice, List.take_append_drop]
      conv_rhs => rw [qsOf.eq_def]
      rw [dif_pos (⟨by omega, hn⟩ : n ≤ r.length ∧ 0 < n)]

/-- The slice scan issues at most one query per full slice plus a final
short one. -/
theorem qsOf_length (n : Nat) (hn : 0 < n) :
    ∀ (k : Nat) (r : List Int) (start : Option Int), r.length ≤ k →
      (qsOf start r n).length ≤ r.length / n + 1 := by
  intro k
  induction k with
  | zero =>
    intro r start hk
    rw [qsOf.eq_def, dif_neg (by omega : ¬ (n ≤ r.length ∧ 0 < n))]
    simp
  | succ k ih =>
    intro r start hk
    by_cases hle : n ≤ r.length
    · rw [qsOf.eq_def, dif_pos ⟨hle, hn⟩]
      have hrec := ih (r.drop n) (some (r.getD (n - 1) 0))
        (by rw [List.length_drop]; omega)
      have hdiv : r.length / n = (r.length - n) / n + 1 := Nat.div_eq_sub_div hn hle
      rw [List.length_drop] at hrec
      simp only [List.length_cons]
      omega
    · rw [qsOf.eq_def, dif_neg (by omega)]
      simp

/-- Each subsequent query of the slice scan binds the last row of the rows
fetched so far. -/
theorem qsOf_bind (tbl : List Int) (n : Nat) (hn : 0 < n) :
    ∀ (k j : Nat) (start : Option Int), tbl.length - j ≤ k →
      ∀ i, i + 1 < (qsOf start (tbl.drop j) n).length →
        (qsOf start (tbl.drop j) n).getD (i + 1) (IssuedQuery.first 0) =
          IssuedQuery.subsequent (tbl.getD (j + (i + 1) * n - 1) 0) n := by
  intro k
  induction k with
  | zero =>
    intro j start hk i hi
    rw [qsOf.eq_def, dif_neg (by rw [List.length_drop]; omega :
      ¬ (n ≤ (tbl.drop j).length ∧ 0 < n))] at hi
    simp at hi
  | succ k ih =>
    intro j start hk i hi
    by_cases hle : n ≤ (tbl.drop j).length
    · rw [qsOf.eq_def, dif_pos ⟨hle, hn⟩] at hi ⊢
      have hval : (tbl.drop j).getD (n - 1) 0 = tbl.getD (j + (n - 1)) 0 := by
        rw [List.getD_eq_getElem?_getD, List.getD_eq_getElem?_getD, List.getElem?_drop]
      have hdd : (tbl.drop j).drop n = tbl.drop (j + n) := List.drop_drop n j tbl
      rw [hval, hdd] at hi ⊢
      rw [List.length_drop] at hle
      cases i with
      | zero =>
        simp only [List.getD_cons_succ]
        rw [qsOf.eq_def]
        simp only [List.getD_cons_zero]
        have hidx : j + (n - 1) = j + 1 * n - 1 := by omega
        rw [hidx]
      | succ i0 =>
        have htail := ih (j + n) (some (tbl.getD (j + (n - 1)) 0)) (by omega) i0
          (by simpa using hi)
        simp only [List.getD_cons_succ]
        rw [htail]
        have hx : (i0 + 1 + 1) * n = (i0 + 1) * n + n := by ring
        have hidx : j + n + (i0 + 1) * n - 1 = j + (i0 + 1 + 1) * n - 1 := by
          rw [hx]
          omega
        rw [hidx]
    · rw [qsOf.eq_def, dif_neg (by omega)] at hi
      simp at hi

/-- Claim C4: on a table whose order_col values are strictly increasing and
with a positive slice_size, the slice scan terminates, pushes every row
exactly once and in order, issues the no-WHERE first query and then
subsequent queries binding the previous slice last order_col value, and
issues at most ceil(rows / slice_size) + 1 queries. -/
theorem extract_by_slices_correct (tbl : List Int) (n : Nat)
    (hs : tbl.Pairwise (· < ·)) (hn : 0 < n) :
    ∃ qs, extract_by_slices tbl n = some (tbl, qs)
      ∧ qs.head? = some (IssuedQuery.first n)
      ∧ (∀ i, i + 1 < qs.length →
          qs.getD (i + 1) (IssuedQuery.first 0) =
            IssuedQuery.subsequent (tbl.getD ((i + 1) * n - 1) 0) n)
      ∧ qs.length ≤ (tbl.length + (n - 1)) / n + 1 := by
  have hloop := extract_slices_loop_eq tbl n hn hs (tbl.length + 1) [] tbl rfl (by omega)
  rw [show ([] : List Int).getLast? = Option.none from rfl] at hloop
  refine ⟨qsOf Option.none tbl n, ?_, ?_, ?_, ?_⟩
  · rw [extract_by_slices]
    exact hloop
  · rw [qsOf.eq_def]
    rfl
  · intro i hi
    have hq := qsOf_bind tbl n hn tbl.length 0 Option.none (by omega) i
    rw [List.drop_zero] at hq
    have hres := hq hi
    simpa using hres
  · have hlen := qsOf_length n hn tbl.length tbl Option.none (le_refl _)
    have hdiv : tbl.length / n ≤ (tbl.length + (n - 1)) / n :=
      Nat.div_le_div_right (by omega)
    omega

/-- Claim C4 witness: the five-row table with slice_size 2 is scanned in
three queries — the first without a WHERE clause, the later ones binding 2
and 4 — and every row is pushed exactly once. -/
theorem extract_by_slices_correct_witness :
    extract_by_slices [(1 : Int), 2, 3, 4, 5] 2 =
      some ([1, 2, 3, 4, 5],
        [IssuedQuery.first 2, IssuedQuery.subsequent 2 2, IssuedQuery.subsequent 4 2])
    ∧ ([IssuedQuery.first 2, IssuedQuery.subsequent 2 2,
        IssuedQuery.subsequent 4 2] : List IssuedQuery).length ≤ (5 + (2 - 1)) / 2 + 1 := by
  obtain ⟨qs, h1, h2, h3, h4⟩ :=
    extract_by_slices_correct [(1 : Int), 2, 3, 4, 5] 2 (by decide) (by decide)
  have hv : extract_by_slices [(1 : Int), 2, 3, 4, 5] 2 =
      some ([1, 2, 3, 4, 5],
        [IssuedQuery.first 2, IssuedQuery.subsequent 2 2, IssuedQuery.subsequent 4 2]) := by
    decide
  have hqs : qs = [IssuedQuery.first 2, IssuedQuery.subsequent 2 2,
      IssuedQuery.subsequent 4 2] := by
    rw [hv] at h1
    cases h1
    rfl
  subst hqs
  exact ⟨hv, h4⟩

end CubeTran
